import Mathlib

/-!
Verification of the textra trigger-expansion engine.

This file gives a shallow embedding of the core daemon of the textra
repository (src/bin/core.rs together with the library code in src/lib.rs it
calls, and the older duplicated engine in src/main.rs where a claim refers to
it), and proves or refutes the frozen claims about it.

Modelling conventions:
* Rust `VecDeque<char>` buffers are `List Char` (front of the list = front of
  the deque); `push_back` appends, `pop_back` is `dropLast`, `pop_front` is
  `drop 1`.
* Rust `Instant` timestamps are `Nat` milliseconds; `duration_since` is
  truncated subtraction (Rust's monotonic instants never go backwards).
* `str::ends_with` between well-formed UTF-8 strings coincides with
  char-sequence suffix, so it is modelled as `List.isSuffixOf` on the char
  lists.
* `String::to_uppercase` / `char::is_uppercase` are modelled with the ASCII
  `Char.toUpper` / `Char.isUpper`; all concrete inputs below are ASCII, where
  the two agree.
* `String::is_empty` is modelled as emptiness of the char list.
* External effects are oracles: running a code replacement through an external
  interpreter is a function `String → String → Except String String`
  (language → content → captured stdout or error message), and the
  clock-dependent dynamic substitution of process_dynamic_replacement is a
  function `String → String`.  IPC sends are recorded as emitted events and
  modelled as succeeding.
-/

namespace Textra

/-- Replacement variants, from the config model (lib.rs). -/
inductive Replacement where
  | Simple (text : String)
  | Multiline (text : String)
  | Code (language : String) (content : String)
deriving DecidableEq

/-- A config rule: ordered triggers and a replacement (lib.rs TextraRule);
description and category are irrelevant to the engine and omitted. -/
structure TextraRule where
  triggers : List String
  replacement : Replacement
deriving DecidableEq

/-- MAX_TEXT_LENGTH from lib.rs. -/
def MAX_TEXT_LENGTH : Nat := 100

/-- Logical key codes, from lib.rs keyboard::KeyCode. -/
inductive KeyCode where
  | Char (c : Char)
  | Shift
  | Control
  | Alt
  | Escape
  | Backspace
  | CapsLock
  | Enter
  | Tab
  | Other (code : Nat)
deriving DecidableEq

/-- Key events, from lib.rs keyboard::KeyEvent. -/
inductive KeyEvent where
  | KeyDown (code : KeyCode)
  | KeyUp (code : KeyCode)
deriving DecidableEq

/-- The IPC messages the key-event path of the daemon can send. -/
inductive IpcMessage where
  | ShowOverlay
  | HideOverlay
deriving DecidableEq

/-- Externally observable effects of one key-event step of the daemon:
an IPC send, a batch of synthetic backspaces (keyboard_api.delete_chars),
or synthetic typing of a string (keyboard_api.type_text). -/
inductive OutEvent where
  | send (msg : IpcMessage)
  | deleteChars (count : Nat)
  | typeText (text : String)
deriving DecidableEq

/-- ASCII model of Rust String::to_uppercase. -/
def upperString (s : String) : String :=
  String.mk (s.toList.map Char.toUpper)

/-- Whether the first character of a string is uppercase, the model of
original.chars().next().map_or(false, char::is_uppercase). -/
def headIsUpper (s : String) : Bool :=
  match s.toList with
  | [] => false
  | c :: _ => c.isUpper

/-- Uppercase only the first character, the model of
first_char.to_uppercase().collect::<String>() + chars.as_str(). -/
def capitalizeFirst (s : String) : String :=
  match s.toList with
  | [] => ""
  | c :: rest => String.mk (c.toUpper :: rest)

/-- propagate_case from lib.rs replacement::propagate_case (the version used
by the core daemon), including its leading emptiness guard. -/
def propagate_case (original replacement : String) : String :=
  if original.toList.isEmpty || replacement.toList.isEmpty then
    replacement
  else if original.toList.all Char.isUpper then
    upperString replacement
  else if headIsUpper original then
    capitalizeFirst replacement
  else
    replacement

/-- propagate_case_fn from main.rs: same case analysis but with no emptiness
guard. -/
def propagate_case_fn (original replacement : String) : String :=
  if original.toList.all Char.isUpper then
    upperString replacement
  else if headIsUpper original then
    capitalizeFirst replacement
  else
    replacement

/-- The case-propagation function exactly as the spec sentence describes it:
all-uppercase trigger uppercases the whole replacement, an uppercase first
character uppercases only the replacement's first character, otherwise the
replacement is unchanged.  Written from the claim's words, to be compared
with the source functions. -/
def propagate_case_claim (trigger replacement : String) : String :=
  if trigger.toList.all Char.isUpper then
    upperString replacement
  else if headIsUpper trigger then
    capitalizeFirst replacement
  else
    replacement

/-- The left-brace character, written by code to avoid brace literals. -/
def lbraceChar : Char := Char.ofNat 123

/-- Whether a char list contains two adjacent left braces: the model of
replacement.contains of the two-character brace-brace pattern in core.rs
perform_replacement. -/
def containsDoubleLBrace : List Char → Bool
  | a :: b :: rest => (a == lbraceChar && b == lbraceChar) || containsDoubleLBrace (b :: rest)
  | _ => false

/-- The replacement text computed by core.rs AppState::find_replacement for a
matched rule: Simple and Multiline texts are passed through unchanged, Code is
run through the external-execution oracle, substituting an inline error string
on failure. -/
def replacement_text (exec : String → String → Except String String) :
    Replacement → String
  | .Simple t => t
  | .Multiline t => t
  | .Code lang content =>
    match exec lang content with
    | .ok output => output
    | .error e => "Error executing code: " ++ e

/-- Inner loop of core.rs AppState::find_replacement: scan one rule's triggers
in list order for a suffix of the buffer. -/
def find_trigger (exec : String → String → Except String String)
    (rep : Replacement) (buf : List Char) : List String → Option (String × String)
  | [] => none
  | trigger :: rest =>
    if trigger.toList.isSuffixOf buf then
      some (trigger, replacement_text exec rep)
    else
      find_trigger exec rep buf rest

/-- core.rs AppState::find_replacement: scan rules in declaration order and
stop at the first rule with a matching trigger. -/
def find_replacement (exec : String → String → Except String String) :
    List TextraRule → List Char → Option (String × String)
  | [], _ => none
  | rule :: rest, buf =>
    match find_trigger exec rule.replacement buf rule.triggers with
    | some result => some result
    | none => find_replacement exec rest buf

/-- All (trigger, replacement) pairs of a config in declaration order: rules
in order, and within a rule its triggers in list order. -/
def ruleTriggerPairs (rules : List TextraRule) : List (String × Replacement) :=
  rules.flatMap fun r => r.triggers.map fun t => (t, r.replacement)

/-- The external-effect oracles of the daemon: the result of executing a code
replacement through an external interpreter, and the clock-dependent dynamic
substitution performed by process_dynamic_replacement. -/
structure Env where
  exec : String → String → Except String String
  dynamic : String → String

/-- The daemon state of core.rs AppState that the key-event path reads and
writes; config is represented by its rules list. -/
structure AppState where
  rules : List TextraRule
  current_text : List Char
  last_key_time : Nat
  shift_pressed : Bool
  ctrl_pressed : Bool
  alt_pressed : Bool
  caps_lock_on : Bool
  killswitch : Bool
  last_shift_time : Option Nat
  overlay_visible : Bool

/-- Push one typed character onto the rolling buffer and evict one character
from the front if the capacity is exceeded (core.rs handle_key_event, Char
arm). -/
def push_char (buf : List Char) (c : Char) : List Char :=
  let buf2 := buf ++ [c]
  if buf2.length > MAX_TEXT_LENGTH then buf2.drop 1 else buf2

/-- Pop n characters from the back of the buffer, one at a time (the
pop_back loops of core.rs). -/
def popBackN (l : List Char) : Nat → List Char
  | 0 => l
  | n + 1 => popBackN l.dropLast n

/-- core.rs AppState::perform_replacement, as the list of synthetic-input
effects it emits: compute the final text (dynamic substitution when the
replacement contains a double left brace, case propagation otherwise), skip
everything when the killswitch is set, otherwise delete the trigger's
characters and type the final text. -/
def perform_replacement (env : Env) (killswitch : Bool)
    (trigger replacement : String) : List OutEvent :=
  let final :=
    if containsDoubleLBrace replacement.toList then env.dynamic replacement
    else propagate_case trigger replacement
  if killswitch then []
  else [.deleteChars trigger.length, .typeText final]

/-- The entry of core.rs handle_key_event on any KeyDown: clear the buffer
when more than 1000 ms passed since the previous keystroke, and record the
new keystroke time (folded into a single record update). -/
def idle_update (s : AppState) (now : Nat) : AppState :=
  { s with
    current_text := if now - s.last_key_time > 1000 then [] else s.current_text,
    last_key_time := now }

/-- The Shift KeyDown arm of core.rs handle_key_event: record the shift
modifier and run the double-shift gesture logic — if a previous shift press
is remembered and lies within the 500 ms window, show the overlay unless it
is already visible and clear the remembered timestamp; otherwise remember
this press. -/
def shift_down_step (s : AppState) (now : Nat) : AppState × List OutEvent :=
  match s.last_shift_time with
  | some prev =>
    if now - prev < 500 then
      if s.overlay_visible then
        ({ s with shift_pressed := true, last_shift_time := none }, [])
      else
        ({ s with
            shift_pressed := true
            overlay_visible := true
            last_shift_time := none }, [.send .ShowOverlay])
    else
      ({ s with shift_pressed := true, last_shift_time := some now }, [])
  | none => ({ s with shift_pressed := true, last_shift_time := some now }, [])

/-- The Char KeyDown arm of core.rs handle_key_event: ignore input while the
overlay is visible, clear the buffer on Ctrl+V, otherwise push the character
(evicting from the front over capacity), look for a matching trigger and, on
a match, perform the replacement and pop trigger.len() (byte length)
characters from the buffer's back. -/
def char_down_step (env : Env) (s : AppState) (c : Char) :
    AppState × List OutEvent :=
  if s.overlay_visible then (s, [])
  else if s.ctrl_pressed && (c == 'v' || c == 'V') then
    ({ s with current_text := [] }, [])
  else
    match find_replacement env.exec s.rules (push_char s.current_text c) with
    | some (trigger, replacement_val) =>
      ({ s with current_text :=
          popBackN (push_char s.current_text c) trigger.utf8ByteSize },
        perform_replacement env s.killswitch trigger replacement_val)
    | none => ({ s with current_text := push_char s.current_text c }, [])

/-- core.rs AppState::handle_key_event: one step of the daemon on a logical
key event delivered at time now (ms), returning the new state and the emitted
effects. -/
def handle_key_event (env : Env) (s : AppState) (now : Nat) :
    KeyEvent → AppState × List OutEvent
  | .KeyDown code =>
    let s := idle_update s now
    match code with
    | .Escape => ({ s with killswitch := true }, [])
    | .Shift => shift_down_step s now
    | .Control => ({ s with ctrl_pressed := true }, [])
    | .Alt => ({ s with alt_pressed := true }, [])
    | .CapsLock => ({ s with caps_lock_on := !s.caps_lock_on }, [])
    | .Backspace =>
      if s.overlay_visible then (s, [])
      else ({ s with current_text := s.current_text.dropLast }, [])
    | .Char c => char_down_step env s c
    | _ => (s, [])
  | .KeyUp code =>
    match code with
    | .Shift => ({ s with shift_pressed := false }, [])
    | .Control => ({ s with ctrl_pressed := false }, [])
    | .Alt => ({ s with alt_pressed := false }, [])
    | .Escape =>
      if s.overlay_visible then
        ({ s with overlay_visible := false, killswitch := false },
          [.send .HideOverlay])
      else
        ({ s with killswitch := false }, [])
    | _ => (s, [])

/-- Run the daemon over a list of timestamped key events, concatenating the
emitted effects. -/
def run (env : Env) (s : AppState) :
    List (Nat × KeyEvent) → AppState × List OutEvent
  | [] => (s, [])
  | (t, ev) :: rest =>
    let r1 := handle_key_event env s t ev
    let r2 := run env r1.1 rest
    (r2.1, r1.2 ++ r2.2)

/-- Whether an effect is the ShowOverlay IPC send. -/
def isShowMsg : OutEvent → Bool
  | .send .ShowOverlay => true
  | _ => false

/-- Whether an effect is the HideOverlay IPC send. -/
def isHideMsg : OutEvent → Bool
  | .send .HideOverlay => true
  | _ => false

/-- The message kind delivered to the low-level hook (w_param of
keyboard_hook_proc): key-down, key-up, or anything else. -/
inductive WParam where
  | keyDown
  | keyUp
  | other
deriving DecidableEq

/-- core.rs keyboard_hook_proc, as the key event it forwards to the
registered callback (none when nothing is forwarded): events are forwarded
only when code is non-negative and the echo-suppression gate
(keyboard::is_generating_input, the GENERATING_INPUT atomic) is not set.
Translation of the raw virtual-key code by key_code_from_windows is an
OS-layout oracle conv. -/
def hook_forward (generating : Bool) (code : Int) (conv : Nat → KeyCode)
    (w : WParam) (vk : Nat) : Option KeyEvent :=
  if 0 ≤ code ∧ generating = false then
    match w with
    | .keyDown => some (.KeyDown (conv vk))
    | .keyUp => some (.KeyUp (conv vk))
    | .other => none
  else
    none

/-- One hook invocation composed with the engine: the callback runs
handle_key_event on the forwarded event, and the engine state is untouched
when nothing is forwarded. -/
def hook_step (env : Env) (generating : Bool) (code : Int)
    (conv : Nat → KeyCode) (w : WParam) (vk : Nat) (s : AppState) (now : Nat) :
    AppState × List OutEvent :=
  match hook_forward generating code conv w vk with
  | none => (s, [])
  | some ev => handle_key_event env s now ev

/-- One atomic action on the synthetic-input timeline: a store to the
echo-suppression gate, or one SendInput call (a key-down or key-up for a
virtual-key code).  The sleeps between actions do not touch the gate and are
omitted. -/
inductive SynthAct where
  | setGate (b : Bool)
  | sendInput (vk : Nat) (down : Bool)
deriving DecidableEq

/-- Whether a timeline action is a synthetic input event. -/
def isSend : SynthAct → Bool
  | .sendInput _ _ => true
  | _ => false

/-- The gate value after executing a prefix of the timeline, starting from
init. -/
def gateAfter (init : Bool) : List SynthAct → Bool
  | [] => init
  | .setGate b :: rest => gateAfter b rest
  | .sendInput _ _ :: rest => gateAfter init rest

/-- VK_BACK, the Windows backspace virtual-key code. -/
def VK_BACK : Nat := 8

/-- lib.rs keyboard::send_key as its timeline: set the gate, press the
modifiers, press and release the main key, release the modifiers in reverse
order, clear the gate. -/
def send_key_trace (key_vk : Nat) (modifiers_vk : List Nat) : List SynthAct :=
  [.setGate true]
    ++ modifiers_vk.map (fun m => .sendInput m true)
    ++ [.sendInput key_vk true, .sendInput key_vk false]
    ++ modifiers_vk.reverse.map (fun m => .sendInput m false)
    ++ [.setGate false]

/-- lib.rs keyboard::delete_chars: count individual backspace send_key
calls. -/
def delete_chars_trace (count : Nat) : List SynthAct :=
  (List.range count).flatMap fun _ => send_key_trace VK_BACK []

/-- lib.rs keyboard::type_text: one send_key call per character whose
virtual key resolves; unresolvable characters are skipped.  Resolution
(VkKeyScanW) is an OS oracle giving the virtual key and its modifier keys. -/
def type_text_trace (resolve : Char → Option (Nat × List Nat))
    (text : String) : List SynthAct :=
  text.toList.flatMap fun c =>
    match resolve c with
    | some (vk, mods) => send_key_trace vk mods
    | none => []

/-- The synthetic-input timeline of one core.rs replacement: delete the
trigger's characters, then type the final replacement text (core.rs
perform_replacement going through keyboard_api into lib.rs keyboard). -/
def core_replacement_trace (resolve : Char → Option (Nat × List Nat))
    (trigger final : String) : List SynthAct :=
  delete_chars_trace trigger.length ++ type_text_trace resolve final

/-- A string whose char list is empty is the empty string. -/
theorem toList_nil (s : String) (h : s.toList = []) : s = "" := by
  cases s with
  | mk data =>
    have h2 : data = [] := h
    subst h2
    rfl

/-- find_trigger is first-match over the trigger list in order. -/
theorem find_trigger_eq (exec : String → String → Except String String)
    (rep : Replacement) (buf : List Char) (ts : List String) :
    find_trigger exec rep buf ts
      = (ts.find? fun t => t.toList.isSuffixOf buf).map
          (fun t => (t, replacement_text exec rep)) := by
  induction ts with
  | nil => rfl
  | cons t rest ih =>
    simp only [find_trigger, List.find?_cons]
    cases h : t.toList.isSuffixOf buf <;> simp [h, ih]

/-- Pairing each trigger with its rule's replacement commutes with
first-match search. -/
theorem find?_pairMap (ts : List String) (rep : Replacement) (buf : List Char) :
    (ts.map fun t => (t, rep)).find?
        (fun p => p.1.toList.isSuffixOf buf)
      = (ts.find? fun t => t.toList.isSuffixOf buf).map fun t => (t, rep) := by
  induction ts with
  | nil => rfl
  | cons t rest ih =>
    simp only [List.map_cons, List.find?_cons]
    cases h : t.toList.isSuffixOf buf with
    | true =>
      simp only [h]
      rfl
    | false =>
      simp only [h]
      exact ih

/-- Claim C1: trigger selection is decided purely by declaration order.  The
scan of core.rs AppState::find_replacement returns exactly the first
(trigger, replacement) pair, in rule order and then trigger list order, whose
trigger is a case-sensitive suffix of the buffer, stopping there; in
particular a shorter trigger declared earlier beats a longer matching
trigger declared later (no longest-match resolution), and matching is
case-sensitive. -/
theorem c1_first_match_declaration_order :
    (∀ (exec : String → String → Except String String)
        (rules : List TextraRule) (buf : List Char),
      find_replacement exec rules buf
        = ((ruleTriggerPairs rules).find? fun p => p.1.toList.isSuffixOf buf).map
            (fun p => (p.1, replacement_text exec p.2)))
    ∧ find_replacement (fun _ _ => Except.ok "")
        [⟨["tw"], .Simple "X"⟩, ⟨["btw"], .Simple "Y"⟩] ['b', 't', 'w']
        = some ("tw", "X")
    ∧ find_replacement (fun _ _ => Except.ok "")
        [⟨["btw"], .Simple "X"⟩] ['B', 'T', 'W'] = none := by
  refine ⟨?_, by decide, by decide⟩
  intro exec rules buf
  induction rules with
  | nil => rfl
  | cons r rest ih =>
    have e1 : find_replacement exec (r :: rest) buf
        = (match find_trigger exec r.replacement buf r.triggers with
           | some result => some result
           | none => find_replacement exec rest buf) := rfl
    have e2 : ruleTriggerPairs (r :: rest)
        = (r.triggers.map fun t => (t, r.replacement)) ++ ruleTriggerPairs rest := by
      simp [ruleTriggerPairs]
    rw [e1, find_trigger_eq, e2, List.find?_append, find?_pairMap]
    cases h : r.triggers.find? fun t => t.toList.isSuffixOf buf with
    | none => simpa [h] using ih
    | some t => simp [h]

/-- Claim C2: while the echo-suppression gate (the GENERATING_INPUT /
GENERATING atomic) is set, the keyboard hook forwards nothing to the engine:
no event reaches handle_key_event, and the engine state and its buffer are
unchanged, with no effects emitted. -/
theorem c2_gate_blocks_hook :
    ∀ (env : Env) (code : Int) (conv : Nat → KeyCode) (w : WParam) (vk : Nat)
      (s : AppState) (now : Nat),
      hook_forward true code conv w vk = none
      ∧ hook_step env true code conv w vk s now = (s, []) := by
  intro env code conv w vk s now
  have h : hook_forward true code conv w vk = none := by
    simp [hook_forward]
  exact ⟨h, by simp [hook_step, h]⟩

/-- Claim C5: when the killswitch is set as a replacement is about to start,
the replacement emits zero synthetic key events (no backspaces, no typed
text), for every trigger and every replacement value. -/
theorem c5_killswitch_zero_events :
    ∀ (env : Env) (trigger replacement : String),
      perform_replacement env true trigger replacement = [] := by
  intro env trigger replacement
  simp [perform_replacement]

/-- Claim C8: the case-propagation function follows the claimed case
analysis for every non-empty trigger (triggers are non-empty by the data
model), both in the lib.rs version propagate_case used by the core daemon
and in the main.rs version propagate_case_fn, and satisfies the three
concrete examples. -/
theorem c8_propagate_case_spec :
    (∀ (original replacement : String), original ≠ "" →
      propagate_case original replacement
          = propagate_case_claim original replacement
        ∧ propagate_case_fn original replacement
          = propagate_case_claim original replacement)
    ∧ propagate_case "BTW" "by the way" = "BY THE WAY"
    ∧ propagate_case "Btw" "by the way" = "By the way"
    ∧ propagate_case "btw" "by the way" = "by the way" := by
  refine ⟨?_, by decide, by decide, by decide⟩
  intro o r ho
  refine ⟨?_, rfl⟩
  have ho2 : o.toList.isEmpty = false := by
    cases h : o.toList with
    | nil => exact absurd (toList_nil o h) ho
    | cons a l => rfl
  unfold propagate_case propagate_case_claim
  rw [ho2]
  cases hr : r.toList with
  | nil =>
    have hr0 : r = "" := toList_nil r hr
    subst hr0
    simp [upperString, capitalizeFirst]
  | cons a l =>
    simp

/-- Witness for C8 at a concrete non-empty trigger. -/
theorem c8_propagate_case_spec_witness :
    propagate_case "Btw" "by the way" = propagate_case_claim "Btw" "by the way" :=
  (c8_propagate_case_spec.1 "Btw" "by the way" (by decide)).1

/-- An environment whose code executions succeed with empty output and whose
dynamic substitution is the identity. -/
def envOk : Env := ⟨fun _ _ => .ok "", id⟩

/-- A daemon state with one simple rule and a partly typed trigger at the end
of a non-empty buffer. -/
def st4 : AppState :=
  { rules := [⟨["btw"], .Simple "by the way"⟩]
    current_text := ['h', 'i', ' ', 'b', 't']
    last_key_time := 0
    shift_pressed := false
    ctrl_pressed := false
    alt_pressed := false
    caps_lock_on := false
    killswitch := false
    last_shift_time := none
    overlay_visible := false }

/-- Popping as many characters as a suffix's length removes exactly that
suffix. -/
theorem popBackN_append (rest tl : List Char) :
    popBackN (rest ++ tl) tl.length = rest := by
  induction tl using List.reverseRecOn with
  | nil => simp [popBackN]
  | append_singleton ys y ih =>
    have h1 : rest ++ (ys ++ [y]) = (rest ++ ys) ++ [y] :=
      (List.append_assoc _ _ _).symm
    rw [List.length_append, List.length_singleton, h1]
    show popBackN ((rest ++ ys) ++ [y]).dropLast ys.length = rest
    rw [List.dropLast_concat]
    exact ih

/-- Counterexample to claim C4 as stated: a successful replacement (the
killswitch is off and the synthetic deletion and typing are emitted) after
which the rolling buffer is NOT cleared entirely — only the trigger suffix
is removed and the earlier content remains. -/
theorem c4_counterexample :
    st4.killswitch = false
    ∧ (handle_key_event envOk st4 0 (.KeyDown (.Char 'w'))).2
        = [OutEvent.deleteChars 3, OutEvent.typeText "by the way"]
    ∧ (handle_key_event envOk st4 0 (.KeyDown (.Char 'w'))).1.current_text
        = ['h', 'i', ' ']
    ∧ ¬ (handle_key_event envOk st4 0 (.KeyDown (.Char 'w'))).1.current_text
        = [] := by
  refine ⟨rfl, by decide, by decide, by decide⟩

/-- Claim C4 as amended: immediately after a replacement fires, the buffer is
not cleared entirely; the daemon pops trigger.len() (the trigger's byte
length) characters from the back of the buffer, which for a trigger whose
byte length equals its character count removes exactly the trigger suffix
and keeps everything before it. -/
theorem c4_amended_trigger_suffix_removed :
    ∀ (env : Env) (s : AppState) (now : Nat) (c : Char) (trig rep : String)
      (rest : List Char),
      s.overlay_visible = false →
      s.ctrl_pressed = false →
      now - s.last_key_time ≤ 1000 →
      find_replacement env.exec s.rules (push_char s.current_text c)
        = some (trig, rep) →
      trig.utf8ByteSize = trig.length →
      push_char s.current_text c = rest ++ trig.toList →
      (handle_key_event env s now (.KeyDown (.Char c))).1.current_text = rest := by
  intro env s now c trig rep rest hov hctrl hidle hfind hascii hsplit
  have hidle2 : ¬ now - s.last_key_time > 1000 := by omega
  simp only [handle_key_event, char_down_step, idle_update, hov, hctrl,
    hidle2, if_neg, if_false, Bool.false_and, Bool.false_eq_true, hfind]
  rw [hascii, hsplit]
  have hlen : trig.length = trig.toList.length := rfl
  rw [hlen]
  exact popBackN_append rest trig.toList

/-- Witness for the amended C4 on a concrete state. -/
theorem c4_amended_witness :
    (handle_key_event envOk st4 0 (.KeyDown (.Char 'w'))).1.current_text
      = ['h', 'i', ' '] :=
  c4_amended_trigger_suffix_removed envOk st4 0 'w' "btw" "by the way"
    ['h', 'i', ' '] rfl rfl (by decide) (by decide) (by decide) (by decide)

/-- An environment whose every code execution fails with message boom. -/
def envBoom : Env := ⟨fun _ _ => .error "boom", id⟩

/-- A daemon state with one code rule and a partly typed trigger. -/
def stPy : AppState :=
  { rules := [⟨[":py"], .Code "python" "1/0"⟩]
    current_text := [':', 'p']
    last_key_time := 0
    shift_pressed := false
    ctrl_pressed := false
    alt_pressed := false
    caps_lock_on := false
    killswitch := false
    last_shift_time := none
    overlay_visible := false }

/-- Claim C6: when external execution of a Code replacement fails, the match
substitutes an inline error string as the replacement instead of aborting,
and the engine keeps processing subsequent keystrokes: concretely, after a
failing code replacement the next keystroke is handled normally. -/
theorem c6_code_error_substituted :
    (∀ (exec : String → String → Except String String) (lang content e : String),
      exec lang content = .error e →
      replacement_text exec (.Code lang content) = "Error executing code: " ++ e)
    ∧ (run envBoom stPy [(0, .KeyDown (.Char 'y')), (0, .KeyDown (.Char 'x'))]).2
        = [OutEvent.deleteChars 3,
           OutEvent.typeText "Error executing code: boom"]
    ∧ (run envBoom stPy
          [(0, .KeyDown (.Char 'y')), (0, .KeyDown (.Char 'x'))]).1.current_text
        = ['x'] := by
  refine ⟨?_, by decide, by decide⟩
  intro exec lang content e h
  simp [replacement_text, h]

/-- Witness for C6's substitution law at a concrete failing executor. -/
theorem c6_code_error_substituted_witness :
    replacement_text (fun _ _ => Except.error "boom") (.Code "python" "1/0")
      = "Error executing code: boom" :=
  c6_code_error_substituted.1 (fun _ _ => Except.error "boom") "python" "1/0"
    "boom" rfl

/-- main.rs perform_replacement's final-text computation, with the
propagate_case and dynamic flags exactly as main.rs check_and_replace passes
them per variant (Simple: propagate, Multiline: neither, Code: dynamic). -/
def mainrs_final_replacement (dyn : String → String)
    (original replacement : String) (propagate dynamic : Bool) : String :=
  if dynamic then dyn replacement
  else if propagate then propagate_case_fn original replacement
  else replacement

/-- A daemon state with one multiline rule whose trigger is uppercase. -/
def st7 : AppState :=
  { rules := [⟨["BTW"], .Multiline "by the way"⟩]
    current_text := ['B', 'T']
    last_key_time := 0
    shift_pressed := false
    ctrl_pressed := false
    alt_pressed := false
    caps_lock_on := false
    killswitch := false
    last_shift_time := none
    overlay_visible := false }

/-- Claim C7, evaluated on the code: the core daemon (core.rs) erases the
Simple/Multiline distinction in find_replacement and then case-propagates
every non-dynamic replacement in perform_replacement, so a Multiline
replacement with an all-uppercase trigger is typed fully uppercased rather
than verbatim; the older main.rs engine, by contrast, passes Multiline
replacements through verbatim (propagate and dynamic flags both false). -/
theorem c7_multiline_case_propagated :
    (handle_key_event envOk st7 0 (.KeyDown (.Char 'W'))).2
        = [OutEvent.deleteChars 3, OutEvent.typeText "BY THE WAY"]
    ∧ propagate_case "BTW" "by the way" = "BY THE WAY"
    ∧ (∀ (dyn : String → String) (original text : String),
        mainrs_final_replacement dyn original text false false = text) := by
  refine ⟨by decide, by decide, ?_⟩
  intro dyn original text
  simp [mainrs_final_replacement]

/-- The gate value after a concatenated timeline is obtained by chaining. -/
theorem gateAfter_append (a b : List SynthAct) (init : Bool) :
    gateAfter init (a ++ b) = gateAfter (gateAfter init a) b := by
  induction a generalizing init with
  | nil => rfl
  | cons x rest ih => cases x <;> simp [gateAfter, ih]

/-- Synthetic input events do not change the gate. -/
theorem gateAfter_all_send (l : List SynthAct) (init : Bool)
    (h : ∀ x ∈ l, isSend x = true) : gateAfter init l = init := by
  induction l with
  | nil => rfl
  | cons x rest ih =>
    cases x with
    | setGate b =>
      have hx := h _ (List.mem_cons_self _ _)
      simp [isSend] at hx
    | sendInput v d =>
      simpa [gateAfter] using ih fun x hx => h x (List.mem_cons_of_mem _ hx)

/-- A timeline on which every synthetic input event happens while the gate is
set, whatever the gate's initial value. -/
def sends_gated (tr : List SynthAct) : Prop :=
  ∀ (init : Bool) (k : Nat) (a : SynthAct),
    tr[k]? = some a → isSend a = true → gateAfter init (tr.take k) = true

/-- The empty timeline is trivially gated. -/
theorem sends_gated_nil : sends_gated [] := by
  intro init k a h
  simp at h

/-- Gatedness is preserved by concatenation of timelines. -/
theorem sends_gated_append {a b : List SynthAct}
    (ha : sends_gated a) (hb : sends_gated b) : sends_gated (a ++ b) := by
  intro init k x hget hsend
  by_cases hk : k < a.length
  · rw [List.getElem?_append_left hk] at hget
    rw [List.take_append_of_le_length (Nat.le_of_lt hk)]
    exact ha init k x hget hsend
  · have hk2 : a.length ≤ k := Nat.le_of_not_lt hk
    rw [List.getElem?_append_right hk2] at hget
    rw [List.take_append_eq_append_take, List.take_of_length_le hk2,
      gateAfter_append]
    exact hb _ _ _ hget hsend

/-- Gatedness is preserved by flat-mapping gated timelines over a list. -/
theorem sends_gated_flatMap {α : Type} (l : List α) (f : α → List SynthAct)
    (hf : ∀ x, sends_gated (f x)) : sends_gated (l.flatMap f) := by
  induction l with
  | nil => simpa using sends_gated_nil
  | cons x rest ih =>
    rw [List.flatMap_cons]
    exact sends_gated_append (hf x) ih

/-- A block that sets the gate, performs only synthetic input events, and
clears the gate, is gated. -/
theorem sends_gated_of_shape (tr M : List SynthAct)
    (htr : tr = SynthAct.setGate true :: (M ++ [SynthAct.setGate false]))
    (hM : ∀ x ∈ M, isSend x = true) : sends_gated tr := by
  subst htr
  intro init k a hget hsend
  cases k with
  | zero =>
    simp only [List.getElem?_cons_zero] at hget
    cases hget
    simp [isSend] at hsend
  | succ k =>
    simp only [List.getElem?_cons_succ] at hget
    rw [List.take_succ_cons]
    show gateAfter true ((M ++ [SynthAct.setGate false]).take k) = true
    by_cases hk : k < M.length
    · rw [List.take_append_of_le_length (Nat.le_of_lt hk)]
      exact gateAfter_all_send _ true fun x hx => hM x (List.take_subset _ _ hx)
    · exfalso
      have hk2 : M.length ≤ k := Nat.le_of_not_lt hk
      rw [List.getElem?_append_right hk2] at hget
      cases hkk : k - M.length with
      | zero =>
        rw [hkk] at hget
        simp only [List.getElem?_cons_zero] at hget
        cases hget
        simp [isSend] at hsend
      | succ n =>
        rw [hkk] at hget
        simp at hget

/-- Every send_key timeline is gated. -/
theorem sends_gated_send_key (vk : Nat) (mods : List Nat) :
    sends_gated (send_key_trace vk mods) := by
  apply sends_gated_of_shape (send_key_trace vk mods)
      ((mods.map fun m => SynthAct.sendInput m true)
        ++ ([SynthAct.sendInput vk true, SynthAct.sendInput vk false]
          ++ mods.reverse.map fun m => SynthAct.sendInput m false))
  · simp [send_key_trace, List.append_assoc]
  · intro x hx
    simp at hx
    rcases hx with ⟨m, _, rfl⟩ | rfl | rfl | ⟨m, _, rfl⟩ <;> rfl

/-- Counterexample to claim C3 as stated: on the timeline of one concrete
replacement (trigger btw, final text x, every character resolving to its
code point with no modifiers) there are synthetic events at positions 1 and
13, yet after the first 4 actions — an instant strictly between the first
and last synthetic event of the replacement — the gate is false: the gate is
set and cleared around every individual key, not held once across the
replacement. -/
theorem c3_counterexample :
    (core_replacement_trace (fun c => some (c.toNat, [])) "btw" "x")[1]?
        = some (SynthAct.sendInput 8 true)
    ∧ (core_replacement_trace (fun c => some (c.toNat, [])) "btw" "x")[13]?
        = some (SynthAct.sendInput 120 true)
    ∧ gateAfter false
        ((core_replacement_trace (fun c => some (c.toNat, [])) "btw" "x").take 4)
        = false := by
  refine ⟨by decide, by decide, by decide⟩

/-- Claim C3 as amended: during a replacement the gate is set before and
cleared after each individual synthetic key (lib.rs send_key), so every
synthetic input event of the replacement occurs while the gate is true —
but the gate is not held across the whole replacement: it is momentarily
false between consecutive synthetic keys. -/
theorem c3_amended_each_event_gated :
    ∀ (resolve : Char → Option (Nat × List Nat)) (trigger final : String)
      (init : Bool) (k : Nat) (a : SynthAct),
      (core_replacement_trace resolve trigger final)[k]? = some a →
      isSend a = true →
      gateAfter init ((core_replacement_trace resolve trigger final).take k)
        = true := by
  intro resolve trigger final
  have h : sends_gated (core_replacement_trace resolve trigger final) := by
    apply sends_gated_append
    · exact sends_gated_flatMap _ _ fun _ => sends_gated_send_key _ _
    · apply sends_gated_flatMap
      intro c
      rcases hr : resolve c with _ | ⟨vk, mods⟩
      · exact sends_gated_nil
      · exact sends_gated_send_key vk mods
  exact fun init k a hg hs => h init k a hg hs

/-- Witness for the amended C3 on a concrete single-event position. -/
theorem c3_amended_witness :
    gateAfter false
        ((core_replacement_trace (fun _ => none) "ab" "").take 1) = true :=
  c3_amended_each_event_gated (fun _ => none) "ab" "" false 1
    (SynthAct.sendInput 8 true) (by decide) (by decide)

/-- A replacement emits no IPC sends, in particular no ShowOverlay. -/
theorem show_not_in_perform (env : Env) (kill : Bool)
    (trigger replacement : String) :
    OutEvent.send IpcMessage.ShowOverlay
      ∉ perform_replacement env kill trigger replacement := by
  simp only [perform_replacement]
  split <;> simp

/-- A character step emits no ShowOverlay. -/
theorem show_not_in_char_step (env : Env) (s : AppState) (c : Char) :
    OutEvent.send IpcMessage.ShowOverlay ∉ (char_down_step env s c).2 := by
  unfold char_down_step
  split
  · simp
  · split
    · simp
    · split
      · exact show_not_in_perform _ _ _ _
      · simp

/-- A shift step that emits ShowOverlay starts with the overlay hidden and
ends with it visible. -/
theorem show_in_shift_step (s : AppState) (now : Nat)
    (h : OutEvent.send IpcMessage.ShowOverlay ∈ (shift_down_step s now).2) :
    s.overlay_visible = false
      ∧ (shift_down_step s now).1.overlay_visible = true := by
  unfold shift_down_step at h ⊢
  cases hls : s.last_shift_time with
  | none =>
    simp only [hls] at h
    simp at h
  | some prev =>
    by_cases h5 : now - prev < 500
    · cases hov : s.overlay_visible with
      | true =>
        simp only [hls, if_pos h5, hov] at h
        simp at h
      | false =>
        simp only [hls, if_pos h5, hov] at h ⊢
        simp
    · simp only [hls, if_neg h5] at h
      simp at h

/-- If the overlay is visible, a shift step emits nothing and leaves it
visible. -/
theorem shift_step_while_visible (s : AppState) (now : Nat)
    (hov : s.overlay_visible = true) :
    (shift_down_step s now).1.overlay_visible = true
      ∧ (shift_down_step s now).2 = [] := by
  unfold shift_down_step
  cases hls : s.last_shift_time with
  | none =>
    simp only [hls]
    exact ⟨hov, trivial⟩
  | some prev =>
    by_cases h5 : now - prev < 500
    · simp only [hls, if_pos h5, if_pos hov]
      exact ⟨hov, trivial⟩
    · simp only [hls, if_neg h5]
      exact ⟨hov, trivial⟩

/-- Claim C10, step part (a): any step that emits ShowOverlay starts with
the overlay hidden and ends with it visible. -/
theorem show_requires_hidden (env : Env) (s : AppState) (now : Nat)
    (ev : KeyEvent)
    (h : OutEvent.send IpcMessage.ShowOverlay ∈ (handle_key_event env s now ev).2) :
    s.overlay_visible = false
      ∧ (handle_key_event env s now ev).1.overlay_visible = true := by
  cases ev with
  | KeyDown code =>
    cases code with
    | Shift =>
      have h2 := show_in_shift_step (idle_update s now) now h
      exact ⟨h2.1, h2.2⟩
    | Char c => exact absurd h (show_not_in_char_step env (idle_update s now) c)
    | Escape => simp [handle_key_event] at h
    | Control => simp [handle_key_event] at h
    | Alt => simp [handle_key_event] at h
    | CapsLock => simp [handle_key_event] at h
    | Enter => simp [handle_key_event] at h
    | Tab => simp [handle_key_event] at h
    | Other code => simp [handle_key_event] at h
    | Backspace =>
      simp only [handle_key_event] at h
      split at h <;> simp at h
  | KeyUp code =>
    cases code with
    | Escape =>
      simp only [handle_key_event] at h
      split at h <;> simp at h
    | Shift => simp [handle_key_event] at h
    | Control => simp [handle_key_event] at h
    | Alt => simp [handle_key_event] at h
    | Backspace => simp [handle_key_event] at h
    | CapsLock => simp [handle_key_event] at h
    | Enter => simp [handle_key_event] at h
    | Tab => simp [handle_key_event] at h
    | Char c => simp [handle_key_event] at h
    | Other code => simp [handle_key_event] at h

/-- While the overlay is visible, a step that emits no HideOverlay keeps it
visible and emits no ShowOverlay. -/
theorem visible_step (env : Env) (s : AppState) (t : Nat) (ev : KeyEvent)
    (hov : s.overlay_visible = true)
    (hhide : (handle_key_event env s t ev).2.countP isHideMsg = 0) :
    (handle_key_event env s t ev).1.overlay_visible = true
      ∧ (handle_key_event env s t ev).2.countP isShowMsg = 0 := by
  cases ev with
  | KeyDown code =>
    cases code with
    | Shift =>
      have h2 := shift_step_while_visible (idle_update s t) t hov
      refine ⟨h2.1, ?_⟩
      show (shift_down_step (idle_update s t) t).2.countP isShowMsg = 0
      rw [h2.2]
      rfl
    | Char c =>
      have h2 : char_down_step env (idle_update s t) c = (idle_update s t, []) := by
        unfold char_down_step
        rw [if_pos]
        exact hov
      show (char_down_step env (idle_update s t) c).1.overlay_visible = true
        ∧ (char_down_step env (idle_update s t) c).2.countP isShowMsg = 0
      rw [h2]
      exact ⟨hov, rfl⟩
    | Backspace =>
      simp only [handle_key_event,
        if_pos (show (idle_update s t).overlay_visible = true from hov)]
      exact ⟨hov, rfl⟩
    | Escape => exact ⟨hov, rfl⟩
    | Control => exact ⟨hov, rfl⟩
    | Alt => exact ⟨hov, rfl⟩
    | CapsLock => exact ⟨hov, rfl⟩
    | Enter => exact ⟨hov, rfl⟩
    | Tab => exact ⟨hov, rfl⟩
    | Other code => exact ⟨hov, rfl⟩
  | KeyUp code =>
    cases code with
    | Escape =>
      exfalso
      simp [handle_key_event, hov, isHideMsg] at hhide
    | Shift => exact ⟨hov, rfl⟩
    | Control => exact ⟨hov, rfl⟩
    | Alt => exact ⟨hov, rfl⟩
    | Backspace => exact ⟨hov, rfl⟩
    | CapsLock => exact ⟨hov, rfl⟩
    | Enter => exact ⟨hov, rfl⟩
    | Tab => exact ⟨hov, rfl⟩
    | Char c => exact ⟨hov, rfl⟩
    | Other code => exact ⟨hov, rfl⟩

/-- While the overlay stays visible (no HideOverlay emitted anywhere in the
run), a run emits no ShowOverlay. -/
theorem visible_run (env : Env) :
    ∀ (evs : List (Nat × KeyEvent)) (s : AppState),
      s.overlay_visible = true →
      (run env s evs).2.countP isHideMsg = 0 →
      (run env s evs).2.countP isShowMsg = 0 := by
  intro evs
  induction evs with
  | nil =>
    intro s _ _
    rfl
  | cons p rest ih =>
    intro s hov hhide
    obtain ⟨t, ev⟩ := p
    simp only [run, List.countP_append] at hhide ⊢
    have h1 : (handle_key_event env s t ev).2.countP isHideMsg = 0 := by omega
    have h2 : (run env (handle_key_event env s t ev).1 rest).2.countP isHideMsg
        = 0 := by omega
    have hs := visible_step env s t ev hov h1
    rw [hs.2, ih _ hs.1 h2]

/-- Claim C10: the daemon never sends ShowOverlay while overlay_visible is
already true — (a) a step emitting ShowOverlay starts hidden and ends
visible, (b) a double-shift inside the gesture window while the overlay is
visible sends nothing yet still clears the remembered shift timestamp, and
(c) over any run, as long as the overlay stays visible (no HideOverlay is
emitted) no further ShowOverlay is emitted, so consecutive ShowOverlay
emissions are separated by the overlay becoming hidden. -/
theorem c10_no_show_while_visible :
    (∀ (env : Env) (s : AppState) (now : Nat) (ev : KeyEvent),
      OutEvent.send IpcMessage.ShowOverlay ∈ (handle_key_event env s now ev).2 →
      s.overlay_visible = false
        ∧ (handle_key_event env s now ev).1.overlay_visible = true)
    ∧ (∀ (env : Env) (s : AppState) (now prev : Nat),
        s.last_shift_time = some prev → now - prev < 500 →
        s.overlay_visible = true →
        (handle_key_event env s now (.KeyDown .Shift)).2 = []
          ∧ (handle_key_event env s now (.KeyDown .Shift)).1.last_shift_time
              = none)
    ∧ (∀ (env : Env) (s : AppState) (evs : List (Nat × KeyEvent)),
        s.overlay_visible = true →
        (run env s evs).2.countP isHideMsg = 0 →
        (run env s evs).2.countP isShowMsg = 0) := by
  refine ⟨show_requires_hidden, ?_, fun env s evs => visible_run env evs s⟩
  intro env s now prev hls h500 hov
  show (shift_down_step (idle_update s now) now).2 = []
    ∧ (shift_down_step (idle_update s now) now).1.last_shift_time = none
  unfold shift_down_step
  simp only [show (idle_update s now).last_shift_time = some prev from hls,
    if_pos h500,
    if_pos (show (idle_update s now).overlay_visible = true from hov)]
  exact ⟨trivial, trivial⟩

/-- A daemon state whose overlay is visible with a remembered shift press. -/
def stVis : AppState :=
  { rules := []
    current_text := []
    last_key_time := 0
    shift_pressed := false
    ctrl_pressed := false
    alt_pressed := false
    caps_lock_on := false
    killswitch := false
    last_shift_time := some 0
    overlay_visible := true }

/-- Witness for C10 on a concrete visible state. -/
theorem c10_no_show_while_visible_witness :
    (handle_key_event envOk stVis 100 (.KeyDown .Shift)).2 = [] :=
  (c10_no_show_while_visible.2.1 envOk stVis 100 0 rfl (by decide) rfl).1

/-- Claim C9: from a state with no remembered shift press and the overlay
hidden, two shift key-downs within the 500 ms gesture window emit exactly
one ShowOverlay, and three shift key-downs with consecutive gaps inside the
window also emit exactly one (the second press fires and clears the
remembered timestamp, so the third starts a fresh window). -/
theorem c9_double_shift_single_fire :
    ∀ (env : Env) (s : AppState) (t0 t1 t2 : Nat),
      s.last_shift_time = none →
      s.overlay_visible = false →
      t0 ≤ t1 → t1 ≤ t2 → t1 - t0 < 500 → t2 - t1 < 500 →
      (run env s [(t0, .KeyDown .Shift), (t1, .KeyDown .Shift)]).2.countP
          isShowMsg = 1
      ∧ (run env s [(t0, .KeyDown .Shift), (t1, .KeyDown .Shift),
            (t2, .KeyDown .Shift)]).2.countP isShowMsg = 1 := by
  intro env s t0 t1 t2 hls hov h01le h12le h01 h12
  constructor <;>
    simp [run, handle_key_event, shift_down_step, idle_update, hls, hov,
      h01, h12, isShowMsg, List.countP_cons, List.countP_nil,
      List.countP_append]

/-- An initial daemon state: empty buffer, nothing remembered, overlay
hidden. -/
def st0 : AppState :=
  { rules := []
    current_text := []
    last_key_time := 0
    shift_pressed := false
    ctrl_pressed := false
    alt_pressed := false
    caps_lock_on := false
    killswitch := false
    last_shift_time := none
    overlay_visible := false }

/-- Witness for C9 on concrete times 0 and 100. -/
theorem c9_double_shift_single_fire_witness :
    (run envOk st0 [(0, .KeyDown .Shift), (100, .KeyDown .Shift)]).2.countP
        isShowMsg = 1 :=
  (c9_double_shift_single_fire envOk st0 0 100 200 rfl rfl (by decide)
    (by decide) (by decide) (by decide)).1

end Textra
